import Mathlib

/-!
# mat44: vectors, matrices and graphics transforms

A shallow embedding of `src/mat44.h` (namespace `glutil::math`).

* The C++ type `real` is modelled by an arbitrary field `K`; the theorems
  are stated over `ℝ`, i.e. components are exact reals, and the
  definitions can be evaluated over `ℚ`.
* Every struct is a Lean structure with the same field names; matrices
  are stored as columns `x`, `y`, `z` (and `w`), as in the source.
* C++ operators become named functions: `add` (`+`, `+=`), `neg`
  (unary `-`), `sub` (`-`, `-=`), `mulReal` (`* real`), `divReal`
  (`/ real`), `mulVec` (matrix `*` vector), `mul` (matrix `*` matrix).
  The scalar constructors `mat3(real)` and `mat4(real)` are `ofReal`.
* `operator/=(real s)` is `*= (1/s)` in the source and is modelled the
  same way, with the field's division. That division is total (`1/0 = 0`),
  whereas the source's `float` gives an infinity for `1/0` and infinities
  or NaNs for the scaled components: no real vector. Theorems about a
  function that divides therefore carry a hypothesis that excludes a zero
  divisor, and `vec3.divRealChecked` / `viewChecked` make the zero divisor
  explicit by returning `none`. Rounding is outside the model.
* The `<cmath>` functions `sqrt`, `cos`, `sin`, `tan` are not part of the
  repository; the functions that call them take them as parameters, and
  the theorems instantiate them with `Real.sqrt`, `Real.cos`, `Real.sin`,
  `Real.tan`.
-/

namespace glutil.math

/-! ## vec3 -/

/-- The struct `vec3`: three components. -/
@[ext]
structure vec3 (K : Type) where
  x : K
  y : K
  z : K
deriving DecidableEq, Repr

/-- The struct `vec4`: four components. -/
@[ext]
structure vec4 (K : Type) where
  x : K
  y : K
  z : K
  w : K
deriving DecidableEq, Repr

/-- The struct `mat3`: three `vec3` columns. -/
@[ext]
structure mat3 (K : Type) where
  x : vec3 K
  y : vec3 K
  z : vec3 K
deriving DecidableEq, Repr

/-- The struct `mat4`: four `vec4` columns. -/
@[ext]
structure mat4 (K : Type) where
  x : vec4 K
  y : vec4 K
  z : vec4 K
  w : vec4 K
deriving DecidableEq, Repr

section ops

variable {K : Type} [Field K]

/-- The default constructor `vec3()`. -/
def vec3.zero : vec3 K := ⟨0, 0, 0⟩

/-- `vec3::operator+=` / `operator+`. -/
def vec3.add (a b : vec3 K) : vec3 K := ⟨a.x + b.x, a.y + b.y, a.z + b.z⟩

/-- `vec3::operator*=(real)` / `operator*(real)`. -/
def vec3.mulReal (a : vec3 K) (s : K) : vec3 K := ⟨a.x * s, a.y * s, a.z * s⟩

/-- `vec3::operator/=(real)`: multiplies by `1/s`. It agrees with the source for
`s ≠ 0`; for `s = 0` the field's `1/0` is `0`, where the source's is an infinity. -/
def vec3.divReal (a : vec3 K) (s : K) : vec3 K := vec3.mulReal a (1 / s)

/-- `vec3::operator/=(real)` with the zero divisor made explicit. For `s = 0` the source
computes `1/s = inf` and then `x * inf`, which is an infinity or (for `x = 0`) a NaN in
every component, so the result is no real vector: `none`. For `s ≠ 0` it is
`vec3.divReal a s`. -/
def vec3.divRealChecked [DecidableEq K] (a : vec3 K) (s : K) : Option (vec3 K) :=
  if s = 0 then none else some (vec3.divReal a s)

/-- Unary `vec3::operator+`. -/
def vec3.pos (a : vec3 K) : vec3 K := ⟨a.x, a.y, a.z⟩

/-- Unary `vec3::operator-`. -/
def vec3.neg (a : vec3 K) : vec3 K := ⟨-a.x, -a.y, -a.z⟩

/-- `vec3::operator-=` / `operator-`: adds the negation. -/
def vec3.sub (a b : vec3 K) : vec3 K := vec3.add a (vec3.neg b)

/-- `vec3::lengthSq`. -/
def vec3.lengthSq (a : vec3 K) : K := a.x * a.x + a.y * a.y + a.z * a.z

/-- `vec3::length`, with `std::sqrt` as the parameter `sqrtF`. -/
def vec3.length (sqrtF : K → K) (a : vec3 K) : K := sqrtF (vec3.lengthSq a)

/-- The free `operator*(real, vec3)`: `v * s`. -/
def vec3.realMul (s : K) (v : vec3 K) : vec3 K := vec3.mulReal v s

/-! ## vec4 -/

/-- The default constructor `vec4()`. -/
def vec4.zero : vec4 K := ⟨0, 0, 0, 0⟩

/-- The constructor `vec4(vec3 const &, real)`. -/
def vec4.ofVec3 (v : vec3 K) (w : K) : vec4 K := ⟨v.x, v.y, v.z, w⟩

/-- `vec4::operator+=` / `operator+`. -/
def vec4.add (a b : vec4 K) : vec4 K := ⟨a.x + b.x, a.y + b.y, a.z + b.z, a.w + b.w⟩

/-- `vec4::operator*=(real)` / `operator*(real)`. -/
def vec4.mulReal (a : vec4 K) (s : K) : vec4 K := ⟨a.x * s, a.y * s, a.z * s, a.w * s⟩

/-- `vec4::operator/=(real)`: multiplies by `1/s`. -/
def vec4.divReal (a : vec4 K) (s : K) : vec4 K := vec4.mulReal a (1 / s)

/-- Unary `vec4::operator+`. -/
def vec4.pos (a : vec4 K) : vec4 K := ⟨a.x, a.y, a.z, a.w⟩

/-- Unary `vec4::operator-`. -/
def vec4.neg (a : vec4 K) : vec4 K := ⟨-a.x, -a.y, -a.z, -a.w⟩

/-- `vec4::operator-=` / `operator-`: adds the negation. -/
def vec4.sub (a b : vec4 K) : vec4 K := vec4.add a (vec4.neg b)

/-- `vec4::lengthSq`, as written in the source: the sum has three terms. -/
def vec4.lengthSq (a : vec4 K) : K := a.x * a.x + a.y * a.y + a.z * a.z

/-- `vec4::length`, with `std::sqrt` as the parameter `sqrtF`. -/
def vec4.length (sqrtF : K → K) (a : vec4 K) : K := sqrtF (vec4.lengthSq a)

/-! ## Products of vectors, matrix times vector -/

/-- The free function `cross`. -/
def cross (a b : vec3 K) : vec3 K :=
  ⟨a.y * b.z - b.y * a.z, a.z * b.x - b.z * a.x, a.x * b.y - b.x * a.y⟩

/-- The free function `dot(vec3, vec3)`. -/
def vec3.dot (a b : vec3 K) : K := a.x * b.x + a.y * b.y + a.z * b.z

/-- The free function `dot(vec4, vec4)`. -/
def vec4.dot (a b : vec4 K) : K := a.x * b.x + a.y * b.y + a.z * b.z + a.w * b.w

/-- The free `operator*(mat3, vec3)`. -/
def mat3.mulVec (m : mat3 K) (v : vec3 K) : vec3 K :=
  vec3.add (vec3.add (vec3.mulReal m.x v.x) (vec3.mulReal m.y v.y)) (vec3.mulReal m.z v.z)

/-- The free `operator*(mat4, vec4)`. -/
def mat4.mulVec (m : mat4 K) (v : vec4 K) : vec4 K :=
  vec4.add (vec4.add (vec4.add (vec4.mulReal m.x v.x) (vec4.mulReal m.y v.y))
    (vec4.mulReal m.z v.z)) (vec4.mulReal m.w v.w)

/-! ## mat3 -/

/-- The constructor `mat3(real s = 1)`. -/
def mat3.ofReal (s : K) : mat3 K := ⟨⟨s, 0, 0⟩, ⟨0, s, 0⟩, ⟨0, 0, s⟩⟩

/-- `mat3::operator+=` / `operator+`. -/
def mat3.add (a b : mat3 K) : mat3 K := ⟨vec3.add a.x b.x, vec3.add a.y b.y, vec3.add a.z b.z⟩

/-- `mat3::operator*=(real)` / `operator*(real)`. -/
def mat3.mulReal (a : mat3 K) (s : K) : mat3 K :=
  ⟨vec3.mulReal a.x s, vec3.mulReal a.y s, vec3.mulReal a.z s⟩

/-- `mat3::operator/=(real)` / `operator/(real)`: multiplies by `1/s`. -/
def mat3.divReal (a : mat3 K) (s : K) : mat3 K := mat3.mulReal a (1 / s)

/-- `mat3::operator*=(mat3)` / `operator*(mat3)`: the receiver applied to each column. -/
def mat3.mul (a b : mat3 K) : mat3 K :=
  ⟨mat3.mulVec a b.x, mat3.mulVec a b.y, mat3.mulVec a b.z⟩

/-- The free function `det(mat3)`. -/
def mat3.det (m : mat3 K) : K := vec3.dot m.x (cross m.y m.z)

/-- The free function `transpose(mat3)`. -/
def mat3.transpose (m : mat3 K) : mat3 K :=
  ⟨⟨m.x.x, m.y.x, m.z.x⟩, ⟨m.x.y, m.y.y, m.z.y⟩, ⟨m.x.z, m.y.z, m.z.z⟩⟩

/-- The free function `inverse(mat3)`. -/
def mat3.inverse (m : mat3 K) : mat3 K :=
  mat3.divReal (mat3.transpose ⟨cross m.y m.z, cross m.z m.x, cross m.x m.y⟩) (mat3.det m)

/-! ## mat4 -/

/-- The constructor `mat4(real s = 1)`. -/
def mat4.ofReal (s : K) : mat4 K := ⟨⟨s, 0, 0, 0⟩, ⟨0, s, 0, 0⟩, ⟨0, 0, s, 0⟩, ⟨0, 0, 0, 1⟩⟩

/-- `mat4::operator*=(real)` / `operator*(real)`. -/
def mat4.mulReal (a : mat4 K) (s : K) : mat4 K :=
  ⟨vec4.mulReal a.x s, vec4.mulReal a.y s, vec4.mulReal a.z s, vec4.mulReal a.w s⟩

/-- `mat4::operator/=(real)` / `operator/(real)`: multiplies by `1/s`. -/
def mat4.divReal (a : mat4 K) (s : K) : mat4 K := mat4.mulReal a (1 / s)

/-- `mat4::operator*=(mat4)` / `operator*(mat4)`: the receiver applied to each column. -/
def mat4.mul (a b : mat4 K) : mat4 K :=
  ⟨mat4.mulVec a b.x, mat4.mulVec a b.y, mat4.mulVec a b.z, mat4.mulVec a b.w⟩

/-- The free function `wedge`: four signed 3x3 minors of the three arguments. -/
def wedge (a b c : vec4 K) : vec4 K :=
  let mx : mat3 K := ⟨⟨a.y, a.z, a.w⟩, ⟨b.y, b.z, b.w⟩, ⟨c.y, c.z, c.w⟩⟩
  let my : mat3 K := ⟨⟨a.x, a.z, a.w⟩, ⟨b.x, b.z, b.w⟩, ⟨c.x, c.z, c.w⟩⟩
  let mz : mat3 K := ⟨⟨a.x, a.y, a.w⟩, ⟨b.x, b.y, b.w⟩, ⟨c.x, c.y, c.w⟩⟩
  let mw : mat3 K := ⟨⟨a.x, a.y, a.z⟩, ⟨b.x, b.y, b.z⟩, ⟨c.x, c.y, c.z⟩⟩
  ⟨mat3.det mx, -mat3.det my, mat3.det mz, -mat3.det mw⟩

/-- The free function `det(mat4)`. -/
def mat4.det (m : mat4 K) : K := vec4.dot m.x (wedge m.y m.z m.w)

/-- The free function `transpose(mat4)`. -/
def mat4.transpose (m : mat4 K) : mat4 K :=
  ⟨⟨m.x.x, m.y.x, m.z.x, m.w.x⟩, ⟨m.x.y, m.y.y, m.z.y, m.w.y⟩,
   ⟨m.x.z, m.y.z, m.z.z, m.w.z⟩, ⟨m.x.w, m.y.w, m.z.w, m.w.w⟩⟩

/-- The free function `inverse(mat4)`. -/
def mat4.inverse (m : mat4 K) : mat4 K :=
  mat4.divReal
    (mat4.transpose
      ⟨vec4.pos (wedge m.y m.z m.w), vec4.neg (wedge m.z m.w m.x),
       vec4.pos (wedge m.w m.x m.y), vec4.neg (wedge m.x m.y m.z)⟩)
    (mat4.det m)

/-- The constructor `mat4(mat3 const &)`. -/
def mat4.ofMat3 (m : mat3 K) : mat4 K :=
  ⟨vec4.ofVec3 m.x 0, vec4.ofVec3 m.y 0, vec4.ofVec3 m.z 0, ⟨0, 0, 0, 1⟩⟩

/-! ## Transforms -/

/-- The free function `skew`. -/
def skew (v : vec3 K) : mat3 K := ⟨⟨0, v.z, -v.y⟩, ⟨-v.z, 0, v.x⟩, ⟨v.y, -v.x, 0⟩⟩

/-- The free function `rotation`, with `cos`, `sin` and `std::sqrt` as parameters. -/
def rotation (cosF sinF sqrtF : K → K) (angle : K) (_axis : vec3 K) : mat3 K :=
  let c := cosF angle
  let s := sinF angle
  let v := _axis
  let v := vec3.divReal v (vec3.length sqrtF v)
  mat3.add (mat3.add (mat3.ofReal c) (skew (vec3.mulReal v s)))
    (mat3.mulReal ⟨vec3.realMul v.x v, vec3.realMul v.y v, vec3.realMul v.z v⟩ (1 - c))

/-- The free function `translation`: the identity with `w.x`, `w.y`, `w.z` overwritten. -/
def translation (v : vec3 K) : mat4 K :=
  let result : mat4 K := mat4.ofReal 1
  let result := { result with w := { result.w with x := v.x } }
  let result := { result with w := { result.w with y := v.y } }
  let result := { result with w := { result.w with z := v.z } }
  result

/-- The free function `frustum`: a default-constructed `mat4` (the identity) whose
entries are overwritten statement by statement, in the order of the source. The
second statement of the source assigns `x.w` and then `x.y` twice (never `x.z`). -/
def frustum (left right bottom top nearZ farZ : K) : mat4 K :=
  let frust : mat4 K := mat4.ofReal 1
  let deltaX := right - left
  let deltaY := top - bottom
  let deltaZ := farZ - nearZ
  let frust := { frust with x := { frust.x with x := 2 * nearZ / deltaX } }
  let frust := { frust with x := { frust.x with w := 0 } }
  let frust := { frust with x := { frust.x with y := frust.x.w } }
  let frust := { frust with x := { frust.x with y := frust.x.y } }
  let frust := { frust with y := { frust.y with y := 2 * nearZ / deltaY } }
  let frust := { frust with y := { frust.y with w := 0 } }
  let frust := { frust with y := { frust.y with z := frust.y.w } }
  let frust := { frust with y := { frust.y with x := frust.y.z } }
  let frust := { frust with z := { frust.z with x := (right + left) / deltaX } }
  let frust := { frust with z := { frust.z with y := (top + bottom) / deltaY } }
  let frust := { frust with z := { frust.z with z := -(nearZ + farZ) / deltaZ } }
  let frust := { frust with z := { frust.z with w := -1 } }
  let frust := { frust with w := { frust.w with z := -2 * nearZ * farZ / deltaZ } }
  let frust := { frust with w := { frust.w with w := 0 } }
  let frust := { frust with w := { frust.w with y := frust.w.w } }
  let frust := { frust with w := { frust.w with x := frust.w.y } }
  frust

/-- The free function `perspective`, with `std::tan` as the parameter `tanF`. -/
def perspective (tanF : K → K) (fovy aspect nearZ farZ : K) : mat4 K :=
  let frustumH := tanF (fovy / 2) * nearZ
  let frustumW := frustumH * aspect
  frustum (-frustumW) frustumW (-frustumH) frustumH nearZ farZ

/-- The free function `orthogonal`: a default-constructed `mat4` (the identity) with
six entries overwritten, in the order of the source. -/
def orthogonal (left right bottom top nearZ farZ : K) : mat4 K :=
  let deltaX := right - left
  let deltaY := top - bottom
  let deltaZ := farZ - nearZ
  let ortho : mat4 K := mat4.ofReal 1
  let ortho := { ortho with x := { ortho.x with x := 2 / deltaX } }
  let ortho := { ortho with w := { ortho.w with x := -(right + left) / deltaX } }
  let ortho := { ortho with y := { ortho.y with y := 2 / deltaY } }
  let ortho := { ortho with z := { ortho.z with y := -(top + bottom) / deltaY } }
  let ortho := { ortho with z := { ortho.z with z := -2 / deltaZ } }
  let ortho := { ortho with w := { ortho.w with z := -(nearZ + farZ) / deltaZ } }
  ortho

/-- The free function `view`, with `std::sqrt` as the parameter `sqrtF`. -/
def view (sqrtF : K → K) (eye _up _forward : vec3 K) : mat4 K :=
  let right := cross _up _forward
  let up := cross _forward right
  let forward := _forward
  let up := vec3.divReal up (vec3.length sqrtF up)
  let right := vec3.divReal right (vec3.length sqrtF right)
  let forward := vec3.divReal forward (vec3.length sqrtF forward)
  mat4.mul
    (mat4.transpose
      ⟨vec4.ofVec3 (vec3.pos right) 0, vec4.ofVec3 (vec3.pos up) 0,
       vec4.ofVec3 (vec3.neg forward) 0, vec4.ofVec3 vec3.zero 1⟩)
    (translation (vec3.neg eye))

/-- The free function `view` with the three normalisations done by
`vec3.divRealChecked`, in the order of the source (`up`, `right`, `forward`): `none`
when one of the three lengths is `0`, where the source's matrix holds NaNs. -/
def viewChecked [DecidableEq K] (sqrtF : K → K) (eye _up _forward : vec3 K) :
    Option (mat4 K) :=
  let right := cross _up _forward
  let up := cross _forward right
  let forward := _forward
  (vec3.divRealChecked up (vec3.length sqrtF up)).bind fun up =>
  (vec3.divRealChecked right (vec3.length sqrtF right)).bind fun right =>
  (vec3.divRealChecked forward (vec3.length sqrtF forward)).bind fun forward =>
  some (mat4.mul
    (mat4.transpose
      ⟨vec4.ofVec3 (vec3.pos right) 0, vec4.ofVec3 (vec3.pos up) 0,
       vec4.ofVec3 (vec3.neg forward) 0, vec4.ofVec3 vec3.zero 1⟩)
    (translation (vec3.neg eye)))

/-! ## Auxiliary definitions used in the proofs -/

/-- The matrix with `d` in all four diagonal entries. -/
def mat4.diag (d : K) : mat4 K := ⟨⟨d, 0, 0, 0⟩, ⟨0, d, 0, 0⟩, ⟨0, 0, d, 0⟩, ⟨0, 0, 0, d⟩⟩

/-- The matrix of `cross` columns that `inverse(mat3)` transposes and divides. -/
def mat3.cofactors (m : mat3 K) : mat3 K := ⟨cross m.y m.z, cross m.z m.x, cross m.x m.y⟩

/-- The matrix of signed `wedge` columns that `inverse(mat4)` transposes and divides. -/
def mat4.cofactors (m : mat4 K) : mat4 K :=
  ⟨vec4.pos (wedge m.y m.z m.w), vec4.neg (wedge m.z m.w m.x),
   vec4.pos (wedge m.w m.x m.y), vec4.neg (wedge m.x m.y m.z)⟩

/-- The expression returned by `rotation`, as a function of `c`, `s` and the
normalised axis `v`. -/
def rodrigues (c s : K) (v : vec3 K) : mat3 K :=
  mat3.add (mat3.add (mat3.ofReal c) (skew (vec3.mulReal v s)))
    (mat3.mulReal ⟨vec3.realMul v.x v, vec3.realMul v.y v, vec3.realMul v.z v⟩ (1 - c))

/-- The upper-left 3x3 block of a `mat4`, as a `mat3` with the same column order. -/
def mat4.upperLeft (m : mat4 K) : mat3 K :=
  ⟨⟨m.x.x, m.x.y, m.x.z⟩, ⟨m.y.x, m.y.y, m.y.z⟩, ⟨m.z.x, m.z.y, m.z.z⟩⟩

/-- The `mat4` as a Mathlib matrix: entry `(i, j)` is component `i` of column `j`. -/
def mat4.toMatrix (m : mat4 K) : Matrix (Fin 4) (Fin 4) K :=
  Matrix.of ![![m.x.x, m.y.x, m.z.x, m.w.x], ![m.x.y, m.y.y, m.z.y, m.w.y],
    ![m.x.z, m.y.z, m.z.z, m.w.z], ![m.x.w, m.y.w, m.z.w, m.w.w]]

end ops

/-! ## Inverse laws -/

section inverseLaws

variable {K : Type} [Field K]

theorem mat3_inverse_eq (m : mat3 K) :
    mat3.inverse m = mat3.mulReal (mat3.transpose (mat3.cofactors m)) (1 / mat3.det m) := rfl

theorem mat4_inverse_eq (m : mat4 K) :
    mat4.inverse m = mat4.mulReal (mat4.transpose (mat4.cofactors m)) (1 / mat4.det m) := rfl

theorem mat3_mul_mulReal (a b : mat3 K) (s : K) :
    mat3.mul a (mat3.mulReal b s) = mat3.mulReal (mat3.mul a b) s := by
  ext <;> simp only [mat3.mul, mat3.mulVec, mat3.mulReal, vec3.add, vec3.mulReal] <;> ring

theorem mat3_mulReal_mul (a b : mat3 K) (s : K) :
    mat3.mul (mat3.mulReal a s) b = mat3.mulReal (mat3.mul a b) s := by
  ext <;> simp only [mat3.mul, mat3.mulVec, mat3.mulReal, vec3.add, vec3.mulReal] <;> ring

theorem mat4_mul_mulReal (a b : mat4 K) (s : K) :
    mat4.mul a (mat4.mulReal b s) = mat4.mulReal (mat4.mul a b) s := by
  ext <;> simp only [mat4.mul, mat4.mulVec, mat4.mulReal, vec4.add, vec4.mulReal] <;> ring

theorem mat4_mulReal_mul (a b : mat4 K) (s : K) :
    mat4.mul (mat4.mulReal a s) b = mat4.mulReal (mat4.mul a b) s := by
  ext <;> simp only [mat4.mul, mat4.mulVec, mat4.mulReal, vec4.add, vec4.mulReal] <;> ring

theorem mat3_cofactors_mul (m : mat3 K) :
    mat3.mul (mat3.transpose (mat3.cofactors m)) m = mat3.ofReal (mat3.det m) := by
  obtain ⟨⟨a1, a2, a3⟩, ⟨b1, b2, b3⟩, ⟨c1, c2, c3⟩⟩ := m
  ext <;>
    simp only [mat3.mul, mat3.mulVec, mat3.transpose, mat3.cofactors, mat3.ofReal, mat3.det,
      vec3.dot, vec3.add, vec3.mulReal, cross] <;> ring

theorem mat3_mul_cofactors (m : mat3 K) :
    mat3.mul m (mat3.transpose (mat3.cofactors m)) = mat3.ofReal (mat3.det m) := by
  obtain ⟨⟨a1, a2, a3⟩, ⟨b1, b2, b3⟩, ⟨c1, c2, c3⟩⟩ := m
  ext <;>
    simp only [mat3.mul, mat3.mulVec, mat3.transpose, mat3.cofactors, mat3.ofReal, mat3.det,
      vec3.dot, vec3.add, vec3.mulReal, cross] <;> ring

set_option maxHeartbeats 1600000 in
theorem mat4_cofactors_mul (m : mat4 K) :
    mat4.mul (mat4.transpose (mat4.cofactors m)) m = mat4.diag (mat4.det m) := by
  obtain ⟨⟨a1, a2, a3, a4⟩, ⟨b1, b2, b3, b4⟩, ⟨c1, c2, c3, c4⟩, ⟨d1, d2, d3, d4⟩⟩ := m
  ext <;>
    simp only [mat4.mul, mat4.mulVec, mat4.transpose, mat4.cofactors, mat4.diag, mat4.det,
      vec4.dot, vec4.add, vec4.mulReal, vec4.pos, vec4.neg, wedge, mat3.det, vec3.dot, cross] <;>
    ring

set_option maxHeartbeats 1600000 in
theorem mat4_mul_cofactors (m : mat4 K) :
    mat4.mul m (mat4.transpose (mat4.cofactors m)) = mat4.diag (mat4.det m) := by
  obtain ⟨⟨a1, a2, a3, a4⟩, ⟨b1, b2, b3, b4⟩, ⟨c1, c2, c3, c4⟩, ⟨d1, d2, d3, d4⟩⟩ := m
  ext <;>
    simp only [mat4.mul, mat4.mulVec, mat4.transpose, mat4.cofactors, mat4.diag, mat4.det,
      vec4.dot, vec4.add, vec4.mulReal, vec4.pos, vec4.neg, wedge, mat3.det, vec3.dot, cross] <;>
    ring

theorem mat3_ofReal_mulReal_inv (d : K) (h : d ≠ 0) :
    mat3.mulReal (mat3.ofReal d) (1 / d) = mat3.ofReal 1 := by
  ext <;> simp [mat3.mulReal, mat3.ofReal, vec3.mulReal, h]

theorem mat4_diag_mulReal_inv (d : K) (h : d ≠ 0) :
    mat4.mulReal (mat4.diag d) (1 / d) = mat4.ofReal 1 := by
  ext <;> simp [mat4.mulReal, mat4.diag, mat4.ofReal, vec4.mulReal, h]

end inverseLaws

/-! ## Rotation -/

section rotationLaws

variable {K : Type} [Field K]

theorem rodrigues_transpose_mul (c s : K) (v : vec3 K) (hc : c * c + s * s = 1)
    (hv : v.x * v.x + v.y * v.y + v.z * v.z = 1) :
    mat3.mul (mat3.transpose (rodrigues c s v)) (rodrigues c s v) = mat3.ofReal 1 := by
  obtain ⟨x, y, z⟩ := v
  simp only at hv
  ext <;> simp only [rodrigues, mat3.mul, mat3.mulVec, mat3.transpose, mat3.add, mat3.mulReal, mat3.ofReal,
    skew, vec3.add, vec3.mulReal, vec3.realMul]
  · linear_combination (1 - x * x) * hc + (s * s * 1 + (1 - c) * (1 - c) * (x * x)) * hv
  · linear_combination (0 - x * y) * hc + (s * s * 0 + (1 - c) * (1 - c) * (x * y)) * hv
  · linear_combination (0 - x * z) * hc + (s * s * 0 + (1 - c) * (1 - c) * (x * z)) * hv
  · linear_combination (0 - y * x) * hc + (s * s * 0 + (1 - c) * (1 - c) * (y * x)) * hv
  · linear_combination (1 - y * y) * hc + (s * s * 1 + (1 - c) * (1 - c) * (y * y)) * hv
  · linear_combination (0 - y * z) * hc + (s * s * 0 + (1 - c) * (1 - c) * (y * z)) * hv
  · linear_combination (0 - z * x) * hc + (s * s * 0 + (1 - c) * (1 - c) * (z * x)) * hv
  · linear_combination (0 - z * y) * hc + (s * s * 0 + (1 - c) * (1 - c) * (z * y)) * hv
  · linear_combination (1 - z * z) * hc + (s * s * 1 + (1 - c) * (1 - c) * (z * z)) * hv

theorem rodrigues_mul_neg (c s : K) (v : vec3 K) (hc : c * c + s * s = 1)
    (hv : v.x * v.x + v.y * v.y + v.z * v.z = 1) :
    mat3.mul (rodrigues c s v) (rodrigues c (-s) v) = mat3.ofReal 1 := by
  obtain ⟨x, y, z⟩ := v
  simp only at hv
  ext <;> simp only [rodrigues, mat3.mul, mat3.mulVec, mat3.transpose, mat3.add, mat3.mulReal, mat3.ofReal,
    skew, vec3.add, vec3.mulReal, vec3.realMul]
  · linear_combination (1 - x * x) * hc + (s * s * 1 + (1 - c) * (1 - c) * (x * x)) * hv
  · linear_combination (0 - x * y) * hc + (s * s * 0 + (1 - c) * (1 - c) * (x * y)) * hv
  · linear_combination (0 - x * z) * hc + (s * s * 0 + (1 - c) * (1 - c) * (x * z)) * hv
  · linear_combination (0 - y * x) * hc + (s * s * 0 + (1 - c) * (1 - c) * (y * x)) * hv
  · linear_combination (1 - y * y) * hc + (s * s * 1 + (1 - c) * (1 - c) * (y * y)) * hv
  · linear_combination (0 - y * z) * hc + (s * s * 0 + (1 - c) * (1 - c) * (y * z)) * hv
  · linear_combination (0 - z * x) * hc + (s * s * 0 + (1 - c) * (1 - c) * (z * x)) * hv
  · linear_combination (0 - z * y) * hc + (s * s * 0 + (1 - c) * (1 - c) * (z * y)) * hv
  · linear_combination (1 - z * z) * hc + (s * s * 1 + (1 - c) * (1 - c) * (z * z)) * hv

theorem rodrigues_det (c s : K) (v : vec3 K) (hc : c * c + s * s = 1)
    (hv : v.x * v.x + v.y * v.y + v.z * v.z = 1) :
    mat3.det (rodrigues c s v) = 1 := by
  obtain ⟨x, y, z⟩ := v
  simp only at hv
  simp only [rodrigues, mat3.det, vec3.dot, cross, mat3.add, mat3.mulReal, mat3.ofReal,
    skew, vec3.add, vec3.mulReal, vec3.realMul]
  linear_combination (1 : K) * hc +
    (s * s + (1 - c) * (c * c + s * s * (x * x + y * y + z * z))) * hv

theorem rodrigues_one_zero (v : vec3 K) : rodrigues 1 0 v = mat3.ofReal 1 := by
  ext <;> simp [rodrigues, mat3.add, mat3.mulReal, mat3.ofReal, skew, vec3.add, vec3.mulReal,
    vec3.realMul]

theorem rotation_eq_rodrigues (cosF sinF sqrtF : K → K) (angle : K) (axis : vec3 K) :
    rotation cosF sinF sqrtF angle axis =
      rodrigues (cosF angle) (sinF angle) (vec3.divReal axis (vec3.length sqrtF axis)) := rfl

theorem vec3_divReal_unit (a : vec3 K) (l : K) (hl : l ≠ 0) (h : l * l = vec3.lengthSq a) :
    (vec3.divReal a l).x * (vec3.divReal a l).x + (vec3.divReal a l).y * (vec3.divReal a l).y
      + (vec3.divReal a l).z * (vec3.divReal a l).z = 1 := by
  simp only [vec3.divReal, vec3.mulReal, vec3.lengthSq] at h ⊢
  field_simp
  linear_combination -h

theorem vec3_lengthSq_nonneg (a : vec3 ℝ) : 0 ≤ vec3.lengthSq a := by
  simp only [vec3.lengthSq]
  nlinarith [mul_self_nonneg a.x, mul_self_nonneg a.y, mul_self_nonneg a.z]

theorem vec3_normalize_unit (a : vec3 ℝ) (h : vec3.length Real.sqrt a ≠ 0) :
    (vec3.divReal a (vec3.length Real.sqrt a)).x * (vec3.divReal a (vec3.length Real.sqrt a)).x
      + (vec3.divReal a (vec3.length Real.sqrt a)).y * (vec3.divReal a (vec3.length Real.sqrt a)).y
      + (vec3.divReal a (vec3.length Real.sqrt a)).z * (vec3.divReal a (vec3.length Real.sqrt a)).z
      = 1 :=
  vec3_divReal_unit a _ h (Real.mul_self_sqrt (vec3_lengthSq_nonneg a))

theorem cos_sin_sq (t : ℝ) : Real.cos t * Real.cos t + Real.sin t * Real.sin t = 1 := by
  have := Real.cos_sq_add_sin_sq t
  nlinarith [this]

end rotationLaws

/-! ## Cross product, determinant and projection lemmas -/

section productLaws

variable {K : Type} [Field K]

theorem cross_eq_zero_of_dependent (a b : vec3 K) (s t : K) (hst : s ≠ 0 ∨ t ≠ 0)
    (h : vec3.add (vec3.mulReal a s) (vec3.mulReal b t) = vec3.zero) :
    cross a b = vec3.zero := by
  obtain ⟨ax, ay, az⟩ := a
  obtain ⟨bx, bY, bz⟩ := b
  simp only [vec3.add, vec3.mulReal, vec3.zero, vec3.mk.injEq] at h
  obtain ⟨h1, h2, h3⟩ := h
  simp only [cross, vec3.zero, vec3.mk.injEq]
  rcases hst with hs | ht
  · refine ⟨?_, ?_, ?_⟩ <;> apply mul_left_cancel₀ hs
    · linear_combination bz * h2 - bY * h3
    · linear_combination bx * h3 - bz * h1
    · linear_combination bY * h1 - bx * h2
  · refine ⟨?_, ?_, ?_⟩ <;> apply mul_left_cancel₀ ht
    · linear_combination ay * h3 - az * h2
    · linear_combination az * h1 - ax * h3
    · linear_combination ax * h2 - ay * h1

theorem dependent_of_cross_eq_zero (a b : vec3 K) (h : cross a b = vec3.zero) :
    ∃ s t : K, (s ≠ 0 ∨ t ≠ 0) ∧
      vec3.add (vec3.mulReal a s) (vec3.mulReal b t) = vec3.zero := by
  obtain ⟨ax, ay, az⟩ := a
  obtain ⟨bx, bY, bz⟩ := b
  simp only [cross, vec3.zero, vec3.mk.injEq] at h
  obtain ⟨h1, h2, h3⟩ := h
  simp only [vec3.add, vec3.mulReal, vec3.zero, vec3.mk.injEq]
  by_cases hx : ax = 0
  · by_cases hy : ay = 0
    · by_cases hz : az = 0
      · exact ⟨1, 0, Or.inl one_ne_zero, by simp [hx, hy, hz]⟩
      · refine ⟨bz, -az, Or.inr (neg_ne_zero.mpr hz), ?_, ?_, ?_⟩
        · linear_combination -h2
        · linear_combination h1
        · ring
    · refine ⟨bY, -ay, Or.inr (neg_ne_zero.mpr hy), ?_, ?_, ?_⟩
      · linear_combination h3
      · ring
      · linear_combination -h1
  · refine ⟨bx, -ax, Or.inr (neg_ne_zero.mpr hx), ?_, ?_, ?_⟩
    · ring
    · linear_combination -h3
    · linear_combination h2

theorem dependent_iff_parallel (a b : vec3 K) :
    (∃ s t : K, (s ≠ 0 ∨ t ≠ 0) ∧
        vec3.add (vec3.mulReal a s) (vec3.mulReal b t) = vec3.zero) ↔
      (a = vec3.zero ∨ b = vec3.zero ∨ ∃ k : K, k ≠ 0 ∧ b = vec3.mulReal a k) := by
  obtain ⟨ax, ay, az⟩ := a
  obtain ⟨bx, bY, bz⟩ := b
  simp only [vec3.add, vec3.mulReal, vec3.zero, vec3.mk.injEq]
  constructor
  · rintro ⟨s, t, hst, h1, h2, h3⟩
    by_cases ht : t = 0
    · subst ht
      have hs : s ≠ 0 := by
        rcases hst with hs | ht
        · exact hs
        · exact absurd rfl ht
      left
      simp only [mul_zero, add_zero, mul_eq_zero, hs, or_false] at h1 h2 h3
      exact ⟨h1, h2, h3⟩
    · right
      by_cases hs : s = 0
      · subst hs
        left
        simp only [mul_zero, zero_add, mul_eq_zero, ht, or_false] at h1 h2 h3
        exact ⟨h1, h2, h3⟩
      · right
        refine ⟨-s / t, div_ne_zero (neg_ne_zero.mpr hs) ht, ?_, ?_, ?_⟩
        · field_simp
          linear_combination h1
        · field_simp
          linear_combination h2
        · field_simp
          linear_combination h3
  · rintro (⟨h1, h2, h3⟩ | ⟨h1, h2, h3⟩ | ⟨k, hk, h1, h2, h3⟩)
    · exact ⟨1, 0, Or.inl one_ne_zero, by simp [h1], by simp [h2], by simp [h3]⟩
    · exact ⟨0, 1, Or.inr one_ne_zero, by simp [h1], by simp [h2], by simp [h3]⟩
    · refine ⟨k, -1, Or.inl hk, ?_, ?_, ?_⟩
      · rw [h1]; ring
      · rw [h2]; ring
      · rw [h3]; ring

/-- Laplace expansion of a 4x4 determinant along the first row, written out. -/
theorem det_fin_four_expand (A : Matrix (Fin 4) (Fin 4) K) :
    A.det =
      A 0 0 * (A 1 1 * (A 2 2 * A 3 3 - A 2 3 * A 3 2) - A 1 2 * (A 2 1 * A 3 3 - A 2 3 * A 3 1)
        + A 1 3 * (A 2 1 * A 3 2 - A 2 2 * A 3 1))
      - A 0 1 * (A 1 0 * (A 2 2 * A 3 3 - A 2 3 * A 3 2) - A 1 2 * (A 2 0 * A 3 3 - A 2 3 * A 3 0)
        + A 1 3 * (A 2 0 * A 3 2 - A 2 2 * A 3 0))
      + A 0 2 * (A 1 0 * (A 2 1 * A 3 3 - A 2 3 * A 3 1) - A 1 1 * (A 2 0 * A 3 3 - A 2 3 * A 3 0)
        + A 1 3 * (A 2 0 * A 3 1 - A 2 1 * A 3 0))
      - A 0 3 * (A 1 0 * (A 2 1 * A 3 2 - A 2 2 * A 3 1) - A 1 1 * (A 2 0 * A 3 2 - A 2 2 * A 3 0)
        + A 1 2 * (A 2 0 * A 3 1 - A 2 1 * A 3 0)) := by
  have e00 : Fin.succAbove (0 : Fin 4) (0 : Fin 3) = 1 := by decide
  have e01 : Fin.succAbove (0 : Fin 4) (1 : Fin 3) = 2 := by decide
  have e02 : Fin.succAbove (0 : Fin 4) (2 : Fin 3) = 3 := by decide
  have e10 : Fin.succAbove (1 : Fin 4) (0 : Fin 3) = 0 := by decide
  have e11 : Fin.succAbove (1 : Fin 4) (1 : Fin 3) = 2 := by decide
  have e12 : Fin.succAbove (1 : Fin 4) (2 : Fin 3) = 3 := by decide
  have e20 : Fin.succAbove (2 : Fin 4) (0 : Fin 3) = 0 := by decide
  have e21 : Fin.succAbove (2 : Fin 4) (1 : Fin 3) = 1 := by decide
  have e22 : Fin.succAbove (2 : Fin 4) (2 : Fin 3) = 3 := by decide
  have e30 : Fin.succAbove (3 : Fin 4) (0 : Fin 3) = 0 := by decide
  have e31 : Fin.succAbove (3 : Fin 4) (1 : Fin 3) = 1 := by decide
  have e32 : Fin.succAbove (3 : Fin 4) (2 : Fin 3) = 2 := by decide
  have v1 : ((1 : Fin 4) : ℕ) = 1 := rfl
  have v2 : ((2 : Fin 4) : ℕ) = 2 := rfl
  have v3 : ((3 : Fin 4) : ℕ) = 3 := rfl
  have s0 : Fin.succ (0 : Fin 3) = 1 := by decide
  have s1 : Fin.succ (1 : Fin 3) = 2 := by decide
  have s2 : Fin.succ (2 : Fin 3) = 3 := by decide
  rw [Matrix.det_succ_row_zero, Fin.sum_univ_four]
  simp only [Matrix.det_fin_three, Matrix.submatrix_apply, e00, e01, e02, e10, e11, e12, e20, e21,
    e22, e30, e31, e32, s0, s1, s2, v1, v2, v3, Fin.val_zero]
  ring

theorem mat4_det_eq_matrix_det (m : mat4 K) : mat4.det m = (mat4.toMatrix m).det := by
  rw [det_fin_four_expand]
  simp only [mat4.toMatrix, Matrix.of_apply, Matrix.cons_val_zero, Matrix.cons_val_one,
    Matrix.head_cons, Matrix.cons_val_two, Matrix.tail_cons, Matrix.cons_val_three,
    mat4.det, vec4.dot, wedge, mat3.det, vec3.dot, cross]
  ring

set_option maxHeartbeats 1600000 in
theorem mat4_toMatrix_mul (a b : mat4 K) :
    mat4.toMatrix (mat4.mul a b) = mat4.toMatrix a * mat4.toMatrix b := by
  ext i j
  fin_cases i <;> fin_cases j <;>
    simp [mat4.toMatrix, mat4.mul, mat4.mulVec, vec4.add, vec4.mulReal, Matrix.mul_apply,
      Fin.sum_univ_four]

theorem tan_quarter_pi : Real.tan (Real.pi / 2 / 2) = 1 := by
  have e : Real.pi / 2 / 2 = Real.pi / 4 := by ring
  rw [e, Real.tan_pi_div_four]

end productLaws

/-! ## The view matrix -/

section viewLaws

variable {K : Type} [Field K]

theorem view_block_rows (sqrtF : K → K) (eye up forward : vec3 K) :
    mat3.transpose (mat4.upperLeft (view sqrtF eye up forward)) =
      ⟨vec3.divReal (cross up forward) (vec3.length sqrtF (cross up forward)),
       vec3.divReal (cross forward (cross up forward))
         (vec3.length sqrtF (cross forward (cross up forward))),
       vec3.neg (vec3.divReal forward (vec3.length sqrtF forward))⟩ := by
  ext <;>
    simp [view, mat4.upperLeft, mat3.transpose, mat4.mul, mat4.mulVec, mat4.transpose,
      translation, mat4.ofReal, vec4.ofVec3, vec3.pos, vec3.neg, vec3.zero, vec4.add,
      vec4.mulReal, vec3.divReal, vec3.mulReal]

theorem mat3_det_transpose (m : mat3 K) : mat3.det (mat3.transpose m) = mat3.det m := by
  simp only [mat3.det, mat3.transpose, vec3.dot, cross]
  ring

theorem det_scaled_rows (r u f : vec3 K) (a b c : K) :
    mat3.det ⟨vec3.divReal r a, vec3.divReal u b, vec3.neg (vec3.divReal f c)⟩ =
      -((1 / a) * (1 / b) * (1 / c)) * vec3.dot r (cross u f) := by
  simp only [mat3.det, vec3.dot, cross, vec3.divReal, vec3.mulReal, vec3.neg]
  ring

theorem dot_divReal (r u : vec3 K) (a b : K) :
    vec3.dot (vec3.divReal r a) (vec3.divReal u b) = (1 / a) * (1 / b) * vec3.dot r u := by
  simp only [vec3.dot, vec3.divReal, vec3.mulReal]
  ring

theorem dot_neg_right (r u : vec3 K) : vec3.dot r (vec3.neg u) = -vec3.dot r u := by
  simp only [vec3.dot, vec3.neg]
  ring

theorem lengthSq_neg (u : vec3 K) : vec3.lengthSq (vec3.neg u) = vec3.lengthSq u := by
  simp only [vec3.lengthSq, vec3.neg]
  ring

theorem dot_right_up (up f : vec3 K) :
    vec3.dot (cross up f) (cross f (cross up f)) = 0 := by
  simp only [vec3.dot, cross]
  ring

theorem dot_right_forward (up f : vec3 K) : vec3.dot (cross up f) f = 0 := by
  simp only [vec3.dot, cross]
  ring

theorem dot_up_forward (up f : vec3 K) : vec3.dot (cross f (cross up f)) f = 0 := by
  simp only [vec3.dot, cross]
  ring

theorem lengthSq_up (up f : vec3 K) :
    vec3.lengthSq (cross f (cross up f)) = vec3.lengthSq f * vec3.lengthSq (cross up f) := by
  simp only [vec3.lengthSq, cross]
  ring

theorem triple_right_up_forward (up f : vec3 K) :
    vec3.dot (cross up f) (cross (cross f (cross up f)) f) =
      vec3.lengthSq (cross up f) * vec3.lengthSq f := by
  simp only [vec3.dot, vec3.lengthSq, cross]
  ring

theorem cross_zero_right (a : vec3 K) : cross a vec3.zero = vec3.zero := by
  ext <;> simp [cross, vec3.zero]

theorem vec3_lengthSq_pos (a : vec3 ℝ) (h : a ≠ vec3.zero) : 0 < vec3.lengthSq a := by
  rcases (vec3_lengthSq_nonneg a).lt_or_eq with hlt | heq
  · exact hlt
  · exfalso
    apply h
    simp only [vec3.lengthSq] at heq
    have hx : a.x = 0 := by nlinarith [mul_self_nonneg a.x, mul_self_nonneg a.y, mul_self_nonneg a.z]
    have hy : a.y = 0 := by nlinarith [mul_self_nonneg a.x, mul_self_nonneg a.y, mul_self_nonneg a.z]
    have hz : a.z = 0 := by nlinarith [mul_self_nonneg a.x, mul_self_nonneg a.y, mul_self_nonneg a.z]
    ext <;> simp [vec3.zero, hx, hy, hz]

theorem vec3_length_pos (a : vec3 ℝ) (h : a ≠ vec3.zero) : 0 < vec3.length Real.sqrt a :=
  Real.sqrt_pos.mpr (vec3_lengthSq_pos a h)

theorem vec3_length_normalized (a : vec3 ℝ) (h : a ≠ vec3.zero) :
    vec3.length Real.sqrt (vec3.divReal a (vec3.length Real.sqrt a)) = 1 := by
  have hu := vec3_normalize_unit a (vec3_length_pos a h).ne'
  rw [vec3.length, vec3.lengthSq, hu, Real.sqrt_one]

theorem forward_ne_zero (up f : vec3 ℝ) (h : cross up f ≠ vec3.zero) : f ≠ vec3.zero := by
  intro hf
  exact h (by rw [hf, cross_zero_right])

theorem up_ne_zero (up f : vec3 ℝ) (h : cross up f ≠ vec3.zero) :
    cross f (cross up f) ≠ vec3.zero := by
  intro hu
  have h1 := lengthSq_up up f
  rw [hu] at h1
  have h2 := vec3_lengthSq_pos _ (forward_ne_zero up f h)
  have h3 := vec3_lengthSq_pos _ h
  have h4 : vec3.lengthSq (vec3.zero : vec3 ℝ) = 0 := by simp [vec3.lengthSq, vec3.zero]
  rw [h4] at h1
  have := mul_pos h2 h3
  linarith

theorem view_block_det (eye up forward : vec3 ℝ) (h : cross up forward ≠ vec3.zero) :
    mat3.det (mat4.upperLeft (view Real.sqrt eye up forward)) = -1 := by
  have hr := vec3_length_pos _ h
  have hf := vec3_length_pos _ (forward_ne_zero up forward h)
  have hR := Real.mul_self_sqrt (vec3_lengthSq_nonneg (cross up forward))
  have hF := Real.mul_self_sqrt (vec3_lengthSq_nonneg forward)
  have hu : vec3.length Real.sqrt (cross forward (cross up forward)) =
      vec3.length Real.sqrt forward * vec3.length Real.sqrt (cross up forward) := by
    rw [vec3.length, lengthSq_up, Real.sqrt_mul (vec3_lengthSq_nonneg forward)]
    rfl
  rw [← mat3_det_transpose, view_block_rows, det_scaled_rows, triple_right_up_forward, hu]
  simp only [vec3.length] at hr hf ⊢
  field_simp
  nlinarith [hR, hF]

theorem viewChecked_eq_some (eye up forward : vec3 ℝ) (h : cross up forward ≠ vec3.zero) :
    viewChecked Real.sqrt eye up forward = some (view Real.sqrt eye up forward) := by
  have hr := (vec3_length_pos _ h).ne'
  have hu := (vec3_length_pos _ (up_ne_zero up forward h)).ne'
  have hf := (vec3_length_pos _ (forward_ne_zero up forward h)).ne'
  simp only [viewChecked, vec3.divRealChecked, if_neg hr, if_neg hu, if_neg hf,
    Option.some_bind]
  rfl

end viewLaws

/-! ## The claims -/

section claims

/-- C1: for every `mat4` over the reals with `det(m) ≠ 0`, both `inverse(m) * m` and
`m * inverse(m)` are the identity matrix `mat4(1)`. -/
theorem inverse_mat4_law (m : mat4 ℝ) (h : mat4.det m ≠ 0) :
    mat4.mul (mat4.inverse m) m = mat4.ofReal 1 ∧
      mat4.mul m (mat4.inverse m) = mat4.ofReal 1 := by
  rw [mat4_inverse_eq, mat4_mulReal_mul, mat4_mul_mulReal, mat4_cofactors_mul,
    mat4_mul_cofactors, mat4_diag_mulReal_inv _ h]
  exact ⟨rfl, rfl⟩

/-- C1, at a matrix with determinant `2`. -/
theorem inverse_mat4_law_witness :
    mat4.det (⟨⟨2, 0, 0, 0⟩, ⟨1, 1, 0, 0⟩, ⟨0, 4, 1, 0⟩, ⟨3, 0, 5, 1⟩⟩ : mat4 ℝ) ≠ 0 ∧
      (mat4.mul (mat4.inverse ⟨⟨2, 0, 0, 0⟩, ⟨1, 1, 0, 0⟩, ⟨0, 4, 1, 0⟩, ⟨3, 0, 5, 1⟩⟩)
          (⟨⟨2, 0, 0, 0⟩, ⟨1, 1, 0, 0⟩, ⟨0, 4, 1, 0⟩, ⟨3, 0, 5, 1⟩⟩ : mat4 ℝ) = mat4.ofReal 1 ∧
        mat4.mul (⟨⟨2, 0, 0, 0⟩, ⟨1, 1, 0, 0⟩, ⟨0, 4, 1, 0⟩, ⟨3, 0, 5, 1⟩⟩ : mat4 ℝ)
          (mat4.inverse ⟨⟨2, 0, 0, 0⟩, ⟨1, 1, 0, 0⟩, ⟨0, 4, 1, 0⟩, ⟨3, 0, 5, 1⟩⟩) =
            mat4.ofReal 1) := by
  have h : mat4.det (⟨⟨2, 0, 0, 0⟩, ⟨1, 1, 0, 0⟩, ⟨0, 4, 1, 0⟩, ⟨3, 0, 5, 1⟩⟩ : mat4 ℝ) ≠ 0 := by
    norm_num [mat4.det, vec4.dot, wedge, mat3.det, vec3.dot, cross]
  exact ⟨h, inverse_mat4_law _ h⟩

/-- C2: for every `mat3` over the reals with `det(m) ≠ 0`, both `inverse(m) * m` and
`m * inverse(m)` are the identity matrix `mat3(1)`. -/
theorem inverse_mat3_law (m : mat3 ℝ) (h : mat3.det m ≠ 0) :
    mat3.mul (mat3.inverse m) m = mat3.ofReal 1 ∧
      mat3.mul m (mat3.inverse m) = mat3.ofReal 1 := by
  rw [mat3_inverse_eq, mat3_mulReal_mul, mat3_mul_mulReal, mat3_cofactors_mul,
    mat3_mul_cofactors, mat3_ofReal_mulReal_inv _ h]
  exact ⟨rfl, rfl⟩

/-- C2, at a matrix with determinant `5`. -/
theorem inverse_mat3_law_witness :
    mat3.det (⟨⟨1, 2, 0⟩, ⟨0, 1, 1⟩, ⟨2, 0, 1⟩⟩ : mat3 ℝ) ≠ 0 ∧
      (mat3.mul (mat3.inverse ⟨⟨1, 2, 0⟩, ⟨0, 1, 1⟩, ⟨2, 0, 1⟩⟩)
          (⟨⟨1, 2, 0⟩, ⟨0, 1, 1⟩, ⟨2, 0, 1⟩⟩ : mat3 ℝ) = mat3.ofReal 1 ∧
        mat3.mul (⟨⟨1, 2, 0⟩, ⟨0, 1, 1⟩, ⟨2, 0, 1⟩⟩ : mat3 ℝ)
          (mat3.inverse ⟨⟨1, 2, 0⟩, ⟨0, 1, 1⟩, ⟨2, 0, 1⟩⟩) = mat3.ofReal 1) := by
  have h : mat3.det (⟨⟨1, 2, 0⟩, ⟨0, 1, 1⟩, ⟨2, 0, 1⟩⟩ : mat3 ℝ) ≠ 0 := by
    norm_num [mat3.det, vec3.dot, cross]
  exact ⟨h, inverse_mat3_law _ h⟩

/-- C3: `vec4::lengthSq` at `(0,0,0,1)` returns `0`, while the sum of the four squared
components is `1`: the `w` component is left out of the squared length, and with it
out of `vec4::length`. -/
theorem vec4_lengthSq_omits_w :
    vec4.lengthSq (⟨0, 0, 0, 1⟩ : vec4 ℝ) = 0 ∧
      vec4.lengthSq (⟨0, 0, 0, 1⟩ : vec4 ℝ) ≠ 0 * 0 + 0 * 0 + 0 * 0 + 1 * 1 ∧
      vec4.length Real.sqrt (⟨0, 0, 0, 1⟩ : vec4 ℝ) = 0 := by
  norm_num [vec4.lengthSq, vec4.length]

/-- C4: `orthogonal(0,2,0,2,1,3)` has `-(top+bottom)/(top-bottom) = -1` in the `y`
component of its `z` column and `0` in the `y` component of its `w` column. -/
theorem orthogonal_offset_in_z_column :
    orthogonal (0 : ℝ) 2 0 2 1 3 = ⟨⟨1, 0, 0, 0⟩, ⟨0, 1, 0, 0⟩, ⟨0, -1, -1, 0⟩, ⟨-1, 0, -2, 1⟩⟩ := by
  ext <;> norm_num [orthogonal, mat4.ofReal]

/-- C5: `frustum(left,right,bottom,top,nearZ,farZ)` is the matrix with columns
`x = (2n/(r-l), 0, 0, 0)`, `y = (0, 2n/(t-b), 0, 0)`,
`z = ((r+l)/(r-l), (t+b)/(t-b), -(n+f)/(f-n), -1)`, `w = (0, 0, -2nf/(f-n), 0)`. -/
theorem frustum_columns (left right bottom top nearZ farZ : ℝ) :
    frustum left right bottom top nearZ farZ =
      ⟨⟨2 * nearZ / (right - left), 0, 0, 0⟩,
       ⟨0, 2 * nearZ / (top - bottom), 0, 0⟩,
       ⟨(right + left) / (right - left), (top + bottom) / (top - bottom),
        -(nearZ + farZ) / (farZ - nearZ), -1⟩,
       ⟨0, 0, -2 * nearZ * farZ / (farZ - nearZ), 0⟩⟩ := by
  ext <;> simp [frustum, mat4.ofReal]

/-- C6: for every angle and every axis of non-zero length, `R = rotation(angle, axis)`
satisfies `transpose(R) * R = mat3(1)` and `det(R) = 1`. -/
theorem rotation_is_proper (angle : ℝ) (axis : vec3 ℝ)
    (h : vec3.length Real.sqrt axis ≠ 0) :
    mat3.mul (mat3.transpose (rotation Real.cos Real.sin Real.sqrt angle axis))
        (rotation Real.cos Real.sin Real.sqrt angle axis) = mat3.ofReal 1 ∧
      mat3.det (rotation Real.cos Real.sin Real.sqrt angle axis) = 1 := by
  rw [rotation_eq_rodrigues]
  exact ⟨rodrigues_transpose_mul _ _ _ (cos_sin_sq angle) (vec3_normalize_unit axis h),
    rodrigues_det _ _ _ (cos_sin_sq angle) (vec3_normalize_unit axis h)⟩

/-- C6, at the angle `1` and the axis `(1,2,2)` of length `3`. -/
theorem rotation_is_proper_witness :
    vec3.length Real.sqrt (⟨1, 2, 2⟩ : vec3 ℝ) ≠ 0 ∧
      (mat3.mul (mat3.transpose (rotation Real.cos Real.sin Real.sqrt 1 ⟨1, 2, 2⟩))
          (rotation Real.cos Real.sin Real.sqrt 1 ⟨1, 2, 2⟩) = mat3.ofReal 1 ∧
        mat3.det (rotation Real.cos Real.sin Real.sqrt 1 ⟨1, 2, 2⟩) = 1) := by
  have h : vec3.length Real.sqrt (⟨1, 2, 2⟩ : vec3 ℝ) ≠ 0 := by
    rw [vec3.length, Real.sqrt_ne_zero']
    norm_num [vec3.lengthSq]
  exact ⟨h, rotation_is_proper 1 _ h⟩

/-- C7: for every angle `t` and every axis of non-zero length,
`rotation(t, axis) * rotation(-t, axis) = mat3(1)`, and `rotation(0, axis) = mat3(1)`. -/
theorem rotation_mul_rotation_neg (t : ℝ) (axis : vec3 ℝ)
    (h : vec3.length Real.sqrt axis ≠ 0) :
    mat3.mul (rotation Real.cos Real.sin Real.sqrt t axis)
        (rotation Real.cos Real.sin Real.sqrt (-t) axis) = mat3.ofReal 1 ∧
      rotation Real.cos Real.sin Real.sqrt 0 axis = mat3.ofReal 1 := by
  refine ⟨?_, ?_⟩
  · rw [rotation_eq_rodrigues, rotation_eq_rodrigues, Real.cos_neg, Real.sin_neg]
    exact rodrigues_mul_neg _ _ _ (cos_sin_sq t) (vec3_normalize_unit axis h)
  · rw [rotation_eq_rodrigues, Real.cos_zero, Real.sin_zero]
    exact rodrigues_one_zero _

/-- C7, at the angle `1` and the axis `(2,3,6)` of length `7`. -/
theorem rotation_mul_rotation_neg_witness :
    vec3.length Real.sqrt (⟨2, 3, 6⟩ : vec3 ℝ) ≠ 0 ∧
      (mat3.mul (rotation Real.cos Real.sin Real.sqrt 1 ⟨2, 3, 6⟩)
          (rotation Real.cos Real.sin Real.sqrt (-1) ⟨2, 3, 6⟩) = mat3.ofReal 1 ∧
        rotation Real.cos Real.sin Real.sqrt 0 (⟨2, 3, 6⟩ : vec3 ℝ) = mat3.ofReal 1) := by
  have h : vec3.length Real.sqrt (⟨2, 3, 6⟩ : vec3 ℝ) ≠ 0 := by
    rw [vec3.length, Real.sqrt_ne_zero']
    norm_num [vec3.lengthSq]
  exact ⟨h, rotation_mul_rotation_neg 1 _ h⟩

/-- C8: for every `v` and `x`, the matrix-vector product `skew(v) * x` is `cross(v, x)`. -/
theorem skew_mulVec_eq_cross (v x : vec3 ℝ) : mat3.mulVec (skew v) x = cross v x := by
  ext <;> simp only [mat3.mulVec, skew, cross, vec3.add, vec3.mulReal] <;> ring

/-- C9: for every `v` and `p`, `translation(v) * vec4(p, 1) = vec4(p + v, 1)`; in
particular `translation((3,4,5)) * vec4((1,1,1), 1) = (4,5,6,1)`. -/
theorem translation_mulVec_point (v p : vec3 ℝ) :
    mat4.mulVec (translation v) (vec4.ofVec3 p 1) = vec4.ofVec3 (vec3.add p v) 1 ∧
      mat4.mulVec (translation (⟨3, 4, 5⟩ : vec3 ℝ)) (vec4.ofVec3 ⟨1, 1, 1⟩ 1) = ⟨4, 5, 6, 1⟩ := by
  constructor
  · ext <;>
      simp only [mat4.mulVec, translation, mat4.ofReal, vec4.ofVec3, vec3.add, vec4.add,
        vec4.mulReal] <;> ring
  · ext <;>
      norm_num [mat4.mulVec, translation, mat4.ofReal, vec4.ofVec3, vec4.add, vec4.mulReal]

/-- C10, as stated, fails where `up` and `forward` are parallel: at `eye = (0,0,5)`,
`up = (0,1,0)`, `forward = (0,2,0)` the vector `right = cross(up, forward)` is zero, its
length is `0`, the normalisation divides by zero, and `view` yields no real matrix, so
`view(eye, up, forward) * vec4(eye, 1)` is not `(0,0,0,1)`. -/
theorem view_parallel_up_forward_undefined :
    cross (⟨0, 1, 0⟩ : vec3 ℝ) ⟨0, 2, 0⟩ = vec3.zero ∧
      vec3.length Real.sqrt (cross (⟨0, 1, 0⟩ : vec3 ℝ) ⟨0, 2, 0⟩) = 0 ∧
      viewChecked Real.sqrt (⟨0, 0, 5⟩ : vec3 ℝ) ⟨0, 1, 0⟩ ⟨0, 2, 0⟩ = none ∧
      (viewChecked Real.sqrt (⟨0, 0, 5⟩ : vec3 ℝ) ⟨0, 1, 0⟩ ⟨0, 2, 0⟩).map
          (fun m => mat4.mulVec m (vec4.ofVec3 ⟨0, 0, 5⟩ 1)) ≠ some ⟨0, 0, 0, 1⟩ := by
  have hc : cross (⟨0, 1, 0⟩ : vec3 ℝ) ⟨0, 2, 0⟩ = vec3.zero := by
    ext <;> norm_num [cross, vec3.zero]
  have hl : vec3.length Real.sqrt (cross (⟨0, 1, 0⟩ : vec3 ℝ) ⟨0, 2, 0⟩) = 0 := by
    rw [hc]
    norm_num [vec3.length, vec3.lengthSq, vec3.zero]
  have hv : viewChecked Real.sqrt (⟨0, 0, 5⟩ : vec3 ℝ) ⟨0, 1, 0⟩ ⟨0, 2, 0⟩ = none := by
    norm_num [viewChecked, vec3.divRealChecked, vec3.length, vec3.lengthSq, cross]
  refine ⟨hc, hl, hv, ?_⟩
  rw [hv]
  simp

/-- C10, amended: for every `eye` and every `up`, `forward` with `cross(up, forward) ≠ 0`,
no normalisation in `view` divides by zero, `view(eye, up, forward)` is a real matrix, and
`view(eye, up, forward) * vec4(eye, 1)` is `(0,0,0,1)`: the eye position is mapped to the
origin of view space. -/
theorem view_maps_eye_to_origin (eye up forward : vec3 ℝ)
    (h : cross up forward ≠ vec3.zero) :
    (viewChecked Real.sqrt eye up forward).map
        (fun m => mat4.mulVec m (vec4.ofVec3 eye 1)) = some ⟨0, 0, 0, 1⟩ ∧
      viewChecked Real.sqrt eye up forward = some (view Real.sqrt eye up forward) ∧
      mat4.mulVec (view Real.sqrt eye up forward) (vec4.ofVec3 eye 1) = ⟨0, 0, 0, 1⟩ := by
  have hm : mat4.mulVec (view Real.sqrt eye up forward) (vec4.ofVec3 eye 1) =
      ⟨0, 0, 0, 1⟩ := by
    ext <;>
      simp only [view, mat4.mulVec, mat4.mul, mat4.transpose, translation, mat4.ofReal,
        vec4.ofVec3, vec3.pos, vec3.neg, vec3.zero, vec4.add, vec4.mulReal] <;> ring
  refine ⟨?_, viewChecked_eq_some eye up forward h, hm⟩
  rw [viewChecked_eq_some eye up forward h, Option.map_some', hm]

/-- C10, amended, at `eye = (0,0,5)`, `up = (0,1,0)`, `forward = (0,0,-1)`. -/
theorem view_maps_eye_to_origin_witness :
    cross (⟨0, 1, 0⟩ : vec3 ℝ) ⟨0, 0, -1⟩ ≠ vec3.zero ∧
      ((viewChecked Real.sqrt (⟨0, 0, 5⟩ : vec3 ℝ) ⟨0, 1, 0⟩ ⟨0, 0, -1⟩).map
          (fun m => mat4.mulVec m (vec4.ofVec3 ⟨0, 0, 5⟩ 1)) = some ⟨0, 0, 0, 1⟩ ∧
        viewChecked Real.sqrt (⟨0, 0, 5⟩ : vec3 ℝ) ⟨0, 1, 0⟩ ⟨0, 0, -1⟩ =
          some (view Real.sqrt ⟨0, 0, 5⟩ ⟨0, 1, 0⟩ ⟨0, 0, -1⟩) ∧
        mat4.mulVec (view Real.sqrt (⟨0, 0, 5⟩ : vec3 ℝ) ⟨0, 1, 0⟩ ⟨0, 0, -1⟩)
          (vec4.ofVec3 ⟨0, 0, 5⟩ 1) = ⟨0, 0, 0, 1⟩) := by
  have h : cross (⟨0, 1, 0⟩ : vec3 ℝ) ⟨0, 0, -1⟩ ≠ vec3.zero := by
    intro h0
    have hx := congrArg vec3.x h0
    norm_num [cross, vec3.zero] at hx
  exact ⟨h, view_maps_eye_to_origin ⟨0, 0, 5⟩ _ _ h⟩

/-- C11: for every `eye` and every `up`, `forward` with `cross(up, forward) ≠ 0` (so both
are non-zero and they are not parallel; they need not be orthogonal), the three rows of
the upper-left 3x3 block of `view(eye, up, forward)` have length `1` and pairwise dot
product `0`. The rows of the block are the columns of its transpose. -/
theorem view_rows_orthonormal (eye up forward : vec3 ℝ) (h : cross up forward ≠ vec3.zero) :
    vec3.length Real.sqrt (mat3.transpose (mat4.upperLeft (view Real.sqrt eye up forward))).x = 1 ∧
      vec3.length Real.sqrt (mat3.transpose (mat4.upperLeft (view Real.sqrt eye up forward))).y = 1 ∧
      vec3.length Real.sqrt (mat3.transpose (mat4.upperLeft (view Real.sqrt eye up forward))).z = 1 ∧
      vec3.dot (mat3.transpose (mat4.upperLeft (view Real.sqrt eye up forward))).x
        (mat3.transpose (mat4.upperLeft (view Real.sqrt eye up forward))).y = 0 ∧
      vec3.dot (mat3.transpose (mat4.upperLeft (view Real.sqrt eye up forward))).x
        (mat3.transpose (mat4.upperLeft (view Real.sqrt eye up forward))).z = 0 ∧
      vec3.dot (mat3.transpose (mat4.upperLeft (view Real.sqrt eye up forward))).y
        (mat3.transpose (mat4.upperLeft (view Real.sqrt eye up forward))).z = 0 := by
  rw [view_block_rows]
  refine ⟨vec3_length_normalized _ h, vec3_length_normalized _ (up_ne_zero up forward h),
    ?_, ?_, ?_, ?_⟩
  · have := vec3_length_normalized _ (forward_ne_zero up forward h)
    rw [vec3.length] at this ⊢
    rw [lengthSq_neg]
    exact this
  · rw [dot_divReal, dot_right_up, mul_zero]
  · rw [dot_neg_right, dot_divReal, dot_right_forward, mul_zero, neg_zero]
  · rw [dot_neg_right, dot_divReal, dot_up_forward, mul_zero, neg_zero]

/-- C11, at `eye = (1,2,3)`, `up = (0,1,1)`, `forward = (0,0,-1)`, where `up` and
`forward` are not orthogonal. -/
theorem view_rows_orthonormal_witness :
    cross (⟨0, 1, 1⟩ : vec3 ℝ) ⟨0, 0, -1⟩ ≠ vec3.zero ∧
      (vec3.length Real.sqrt (mat3.transpose (mat4.upperLeft (view Real.sqrt ⟨1, 2, 3⟩ ⟨0, 1, 1⟩ ⟨0, 0, -1⟩))).x = 1 ∧
      vec3.length Real.sqrt (mat3.transpose (mat4.upperLeft (view Real.sqrt ⟨1, 2, 3⟩ ⟨0, 1, 1⟩ ⟨0, 0, -1⟩))).y = 1 ∧
      vec3.length Real.sqrt (mat3.transpose (mat4.upperLeft (view Real.sqrt ⟨1, 2, 3⟩ ⟨0, 1, 1⟩ ⟨0, 0, -1⟩))).z = 1 ∧
      vec3.dot (mat3.transpose (mat4.upperLeft (view Real.sqrt ⟨1, 2, 3⟩ ⟨0, 1, 1⟩ ⟨0, 0, -1⟩))).x
        (mat3.transpose (mat4.upperLeft (view Real.sqrt ⟨1, 2, 3⟩ ⟨0, 1, 1⟩ ⟨0, 0, -1⟩))).y = 0 ∧
      vec3.dot (mat3.transpose (mat4.upperLeft (view Real.sqrt ⟨1, 2, 3⟩ ⟨0, 1, 1⟩ ⟨0, 0, -1⟩))).x
        (mat3.transpose (mat4.upperLeft (view Real.sqrt ⟨1, 2, 3⟩ ⟨0, 1, 1⟩ ⟨0, 0, -1⟩))).z = 0 ∧
      vec3.dot (mat3.transpose (mat4.upperLeft (view Real.sqrt ⟨1, 2, 3⟩ ⟨0, 1, 1⟩ ⟨0, 0, -1⟩))).y
        (mat3.transpose (mat4.upperLeft (view Real.sqrt ⟨1, 2, 3⟩ ⟨0, 1, 1⟩ ⟨0, 0, -1⟩))).z = 0) := by
  have h : cross (⟨0, 1, 1⟩ : vec3 ℝ) ⟨0, 0, -1⟩ ≠ vec3.zero := by
    intro h0
    have hx := congrArg vec3.x h0
    norm_num [cross, vec3.zero] at hx
  exact ⟨h, view_rows_orthonormal ⟨1, 2, 3⟩ _ _ h⟩

/-- C12: at `eye = (0,0,5)`, `up = (0,1,0)`, `forward = (0,0,-1)` the upper-left 3x3
block of `view` is `diag(-1, 1, 1)`, whose determinant is `-1`. -/
theorem view_block_at_canonical_camera :
    mat4.upperLeft (view Real.sqrt (⟨0, 0, 5⟩ : vec3 ℝ) ⟨0, 1, 0⟩ ⟨0, 0, -1⟩) =
        ⟨⟨-1, 0, 0⟩, ⟨0, 1, 0⟩, ⟨0, 0, 1⟩⟩ ∧
      mat3.det (mat4.upperLeft (view Real.sqrt (⟨0, 0, 5⟩ : vec3 ℝ) ⟨0, 1, 0⟩ ⟨0, 0, -1⟩)) = -1 := by
  have hb : mat4.upperLeft (view Real.sqrt (⟨0, 0, 5⟩ : vec3 ℝ) ⟨0, 1, 0⟩ ⟨0, 0, -1⟩) =
      ⟨⟨-1, 0, 0⟩, ⟨0, 1, 0⟩, ⟨0, 0, 1⟩⟩ := by
    ext <;>
      norm_num [view, mat4.upperLeft, mat4.mul, mat4.mulVec, mat4.transpose,
        translation, mat4.ofReal, vec4.ofVec3, vec3.pos, vec3.neg, vec3.zero, vec4.add,
        vec4.mulReal, vec3.divReal, vec3.mulReal, vec3.length, vec3.lengthSq, cross]
  refine ⟨hb, ?_⟩
  rw [hb]
  norm_num [mat3.det, vec3.dot, cross]

/-- C13: swapping any two distinct columns of a `mat4` or of a `mat3` negates `det`,
and `det(mat3(1)) = det(mat4(1)) = 1`. -/
theorem det_column_swap (m : mat4 ℝ) (n : mat3 ℝ) :
    (mat4.det ⟨m.y, m.x, m.z, m.w⟩ = -mat4.det m ∧
      mat4.det ⟨m.z, m.y, m.x, m.w⟩ = -mat4.det m ∧
      mat4.det ⟨m.w, m.y, m.z, m.x⟩ = -mat4.det m ∧
      mat4.det ⟨m.x, m.z, m.y, m.w⟩ = -mat4.det m ∧
      mat4.det ⟨m.x, m.w, m.z, m.y⟩ = -mat4.det m ∧
      mat4.det ⟨m.x, m.y, m.w, m.z⟩ = -mat4.det m) ∧
    (mat3.det ⟨n.y, n.x, n.z⟩ = -mat3.det n ∧
      mat3.det ⟨n.z, n.y, n.x⟩ = -mat3.det n ∧
      mat3.det ⟨n.x, n.z, n.y⟩ = -mat3.det n) ∧
    mat3.det (mat3.ofReal (1 : ℝ)) = 1 ∧ mat4.det (mat4.ofReal (1 : ℝ)) = 1 := by
  refine ⟨⟨?_, ?_, ?_, ?_, ?_, ?_⟩, ⟨?_, ?_, ?_⟩, ?_, ?_⟩ <;>
    simp only [mat4.det, vec4.dot, wedge, mat3.det, vec3.dot, cross, mat3.ofReal, mat4.ofReal] <;>
    ring

/-- C14: for every `a`, `b`, `c`, the vector `wedge(a,b,c)` has dot product `0` with
each of `a`, `b` and `c`. -/
theorem wedge_orthogonal (a b c : vec4 ℝ) :
    vec4.dot (wedge a b c) a = 0 ∧ vec4.dot (wedge a b c) b = 0 ∧
      vec4.dot (wedge a b c) c = 0 := by
  refine ⟨?_, ?_, ?_⟩ <;>
    simp only [vec4.dot, wedge, mat3.det, vec3.dot, cross] <;> ring

/-- C16: for every `a` and `b`, `dot(cross(a,b), a) = 0`, `dot(cross(a,b), b) = 0` and
`cross(a,b) = -cross(b,a)`; and `cross((1,0,0),(0,1,0)) = (0,0,1)`. -/
theorem cross_orthogonal_anticomm (a b : vec3 ℝ) :
    vec3.dot (cross a b) a = 0 ∧ vec3.dot (cross a b) b = 0 ∧
      cross a b = vec3.neg (cross b a) ∧
      cross (⟨1, 0, 0⟩ : vec3 ℝ) ⟨0, 1, 0⟩ = ⟨0, 0, 1⟩ := by
  refine ⟨?_, ?_, ?_, ?_⟩
  · simp only [vec3.dot, cross]; ring
  · simp only [vec3.dot, cross]; ring
  · ext <;> simp only [vec3.neg, cross] <;> ring
  · ext <;> norm_num [cross]

/-- C17: matrix multiplication is associative for `mat4` and for `mat3`, where the
columns of `A * B` are `A * B.x`, `A * B.y`, `A * B.z` (and `A * B.w`). -/
theorem mul_assoc_mat (A B C : mat4 ℝ) (P Q R : mat3 ℝ) :
    mat4.mul (mat4.mul A B) C = mat4.mul A (mat4.mul B C) ∧
      mat3.mul (mat3.mul P Q) R = mat3.mul P (mat3.mul Q R) ∧
      mat4.mul A B = ⟨mat4.mulVec A B.x, mat4.mulVec A B.y, mat4.mulVec A B.z,
        mat4.mulVec A B.w⟩ ∧
      mat3.mul P Q = ⟨mat3.mulVec P Q.x, mat3.mulVec P Q.y, mat3.mulVec P Q.z⟩ := by
  refine ⟨?_, ?_, rfl, rfl⟩
  · ext <;> simp only [mat4.mul, mat4.mulVec, vec4.add, vec4.mulReal] <;> ring
  · ext <;> simp only [mat3.mul, mat3.mulVec, vec3.add, vec3.mulReal] <;> ring

/-- C19: for every `s`, `mat4(s)` has columns `(s,0,0,0)`, `(0,s,0,0)`, `(0,0,s,0)`,
`(0,0,0,1)`; `mat4(1) * v = v` for every `v`; and `mat4(s)` is `mat4(1) * s`
(`s` times the identity) exactly when `s = 1`. -/
theorem mat4_ofReal_columns (s : ℝ) (v : vec4 ℝ) :
    mat4.ofReal s = ⟨⟨s, 0, 0, 0⟩, ⟨0, s, 0, 0⟩, ⟨0, 0, s, 0⟩, ⟨0, 0, 0, 1⟩⟩ ∧
      (mat4.ofReal s).w.w = 1 ∧
      mat4.mulVec (mat4.ofReal 1) v = v ∧
      (mat4.ofReal s = mat4.mulReal (mat4.ofReal 1) s ↔ s = 1) := by
  refine ⟨rfl, rfl, ?_, ?_⟩
  · ext <;> simp [mat4.mulVec, mat4.ofReal, vec4.add, vec4.mulReal]
  · constructor
    · intro h
      have hw := congrArg (fun m => m.w.w) h
      simp [mat4.ofReal, mat4.mulReal, vec4.mulReal] at hw
      exact hw.symm
    · intro h
      subst h
      ext <;> simp [mat4.ofReal, mat4.mulReal, vec4.mulReal]

/-- C15: for every `a` and `b`, `cross(a, b)` is the zero vector if and only if `a`
and `b` are linearly dependent (some combination `a * s + b * t` with `s`, `t` not both
zero is the zero vector), which is to say if and only if one of them is zero or `b` is
a non-zero multiple of `a`. -/
theorem cross_eq_zero_iff_dependent (a b : vec3 ℝ) :
    (cross a b = vec3.zero ↔
        ∃ s t : ℝ, (s ≠ 0 ∨ t ≠ 0) ∧
          vec3.add (vec3.mulReal a s) (vec3.mulReal b t) = vec3.zero) ∧
      (cross a b = vec3.zero ↔
        a = vec3.zero ∨ b = vec3.zero ∨ ∃ k : ℝ, k ≠ 0 ∧ b = vec3.mulReal a k) := by
  have h1 : cross a b = vec3.zero ↔
      ∃ s t : ℝ, (s ≠ 0 ∨ t ≠ 0) ∧
        vec3.add (vec3.mulReal a s) (vec3.mulReal b t) = vec3.zero :=
    ⟨dependent_of_cross_eq_zero a b,
      fun ⟨s, t, hst, h⟩ => cross_eq_zero_of_dependent a b s t hst h⟩
  exact ⟨h1, h1.trans (dependent_iff_parallel a b)⟩

/-- C18: for `nearZ ≠ 0`, `aspect ≠ 0` and `tan(fovy/2) ≠ 0`,
`perspective(fovy, aspect, nearZ, farZ)` is `frustum(-W, W, -H, H, nearZ, farZ)` with
`H = tan(fovy/2) * nearZ`, `W = H * aspect`; its `x.x` is `1/(aspect * tan(fovy/2))`, its
`y.y` is `1/tan(fovy/2)`, its `z.z`, `z.w`, `w.z` are `-(n+f)/(f-n)`, `-1`, `-2nf/(f-n)`;
and for `fovy = π/2`, `aspect = 1`, `nearZ = 1`, `farZ = 10` both `x.x` and `y.y` are `1`. -/
theorem perspective_entries (fovy aspect nearZ farZ : ℝ) (hn : nearZ ≠ 0) (ha : aspect ≠ 0)
    (ht : Real.tan (fovy / 2) ≠ 0) :
    perspective Real.tan fovy aspect nearZ farZ =
        frustum (-(Real.tan (fovy / 2) * nearZ * aspect)) (Real.tan (fovy / 2) * nearZ * aspect)
          (-(Real.tan (fovy / 2) * nearZ)) (Real.tan (fovy / 2) * nearZ) nearZ farZ ∧
      (perspective Real.tan fovy aspect nearZ farZ).x.x = 1 / (aspect * Real.tan (fovy / 2)) ∧
      (perspective Real.tan fovy aspect nearZ farZ).y.y = 1 / Real.tan (fovy / 2) ∧
      (perspective Real.tan fovy aspect nearZ farZ).z.z = -(nearZ + farZ) / (farZ - nearZ) ∧
      (perspective Real.tan fovy aspect nearZ farZ).z.w = -1 ∧
      (perspective Real.tan fovy aspect nearZ farZ).w.z =
        -2 * nearZ * farZ / (farZ - nearZ) ∧
      (perspective Real.tan (Real.pi / 2) 1 1 10).x.x = 1 ∧
      (perspective Real.tan (Real.pi / 2) 1 1 10).y.y = 1 := by
  refine ⟨rfl, ?_, ?_, rfl, rfl, rfl, ?_, ?_⟩
  · simp only [perspective, frustum, mat4.ofReal]
    field_simp
    ring
  · simp only [perspective, frustum, mat4.ofReal]
    field_simp
    ring
  · simp only [perspective, frustum, mat4.ofReal, tan_quarter_pi]
    norm_num
  · simp only [perspective, frustum, mat4.ofReal, tan_quarter_pi]
    norm_num

/-- C18, at `fovy = π/2`, `aspect = 2`, `nearZ = 1`, `farZ = 10`. -/
theorem perspective_entries_witness :
    (1 : ℝ) ≠ 0 ∧ (2 : ℝ) ≠ 0 ∧ Real.tan (Real.pi / 2 / 2) ≠ 0 ∧
      (perspective Real.tan (Real.pi / 2) 2 1 10).x.x = 1 / (2 * Real.tan (Real.pi / 2 / 2)) ∧
      (perspective Real.tan (Real.pi / 2) 2 1 10).y.y = 1 / Real.tan (Real.pi / 2 / 2) := by
  have ht : Real.tan (Real.pi / 2 / 2) ≠ 0 := by rw [tan_quarter_pi]; exact one_ne_zero
  have h := perspective_entries (Real.pi / 2) 2 1 10 one_ne_zero two_ne_zero ht
  exact ⟨one_ne_zero, two_ne_zero, ht, h.2.1, h.2.2.1⟩

/-- C20: for every `A` and `B`, `det(A * B) = det(A) * det(B)`, and `det(m)` is the
determinant of the 4x4 matrix whose columns are `m.x`, `m.y`, `m.z`, `m.w`. -/
theorem det_mat4_mul (A B m : mat4 ℝ) :
    mat4.det (mat4.mul A B) = mat4.det A * mat4.det B ∧
      mat4.det m = (mat4.toMatrix m).det := by
  refine ⟨?_, mat4_det_eq_matrix_det m⟩
  rw [mat4_det_eq_matrix_det, mat4_toMatrix_mul, Matrix.det_mul, ← mat4_det_eq_matrix_det,
    ← mat4_det_eq_matrix_det]

end claims

end glutil.math
